import Mathlib

/-!
# Verification of the GitHub contributor analyzer (`src/main.py`)

This file shallowly embeds the Python program in `src/main.py` and proves the
specification claims about it.  Python strings are modelled as `List Char`
(with the handful of `str` methods the program uses re-implemented below with
CPython semantics), JSON values as the inductive `J`, Python dicts as ordered
association lists, and code that can raise an exception returns `Option`
(where `none` models a raised exception).
-/

namespace GHContrib

/-! ## Python string primitives (over `List Char`)

Each of these models the corresponding CPython `str` method restricted to the
ways `src/main.py` uses them. -/

/-- The characters stripped by Python's `str.strip()`. -/
def isPySpace (c : Char) : Bool :=
  c = ' ' || c = '\t' || c = '\n' || c = '\r' || c = Char.ofNat 11 || c = Char.ofNat 12

/-- Python `s.strip()`. -/
def pyStrip (s : List Char) : List Char :=
  ((s.dropWhile isPySpace).reverse.dropWhile isPySpace).reverse

/-- Python `s.lower()` (the program only applies it to ASCII domains). -/
def pyLower (s : List Char) : List Char :=
  s.map Char.toLower

/-- Python `s.startswith(p)`. -/
def pyStartsWith (p s : List Char) : Bool :=
  p.isPrefixOf s

/-- Python `p in s` (substring containment). -/
def containsSub (p : List Char) : List Char → Bool
  | [] => p.isPrefixOf []
  | c :: cs => p.isPrefixOf (c :: cs) || containsSub p cs

/-- Fuel-indexed implementation of Python `str.replace` (structural on the
fuel, so that it evaluates inside the kernel); every call keeps
`s.length ≤ fuel`, so the fuel-exhausted branch is unreachable. -/
def pyReplaceF (old new : List Char) : Nat → List Char → List Char
  | _, [] => []
  | 0, _ :: _ => []
  | fuel + 1, c :: cs =>
    if old ≠ [] ∧ old.isPrefixOf (c :: cs) then
      new ++ pyReplaceF old new fuel ((c :: cs).drop old.length)
    else
      c :: pyReplaceF old new fuel cs

/-- Python `s.replace(old, new)`: replace every non-overlapping occurrence of
`old`, scanning left to right.  (The program only calls this with non-empty
literal patterns; for `old = []` this is the identity, a corner CPython treats
differently but which is never reached.) -/
def pyReplace (old new s : List Char) : List Char :=
  pyReplaceF old new s.length s

/-- Fuel-indexed implementation of Python `str.split` (structural on the
fuel); every call keeps `s.length ≤ fuel`, so the fuel-exhausted branch is
unreachable. -/
def pySplitF (sep : List Char) : Nat → List Char → List (List Char)
  | _, [] => [[]]
  | 0, s => [s]
  | fuel + 1, c :: cs =>
    if sep ≠ [] ∧ sep.isPrefixOf (c :: cs) then
      [] :: pySplitF sep fuel ((c :: cs).drop sep.length)
    else
      match pySplitF sep fuel cs with
      | t :: ts => (c :: t) :: ts
      | [] => [[c]]

/-- Python `s.split(sep)` for a non-empty separator: leftmost non-overlapping
occurrences, keeping empty tokens, so that `"".split(sep) = [""]`.
(For `sep = []` CPython raises; the program only splits on literal `"/"` and
`"//"`.) -/
def pySplit (sep s : List Char) : List (List Char) :=
  pySplitF sep s.length s

/-- CPython string `<`: lexicographic comparison by code point. -/
def charsLt : List Char → List Char → Bool
  | [], [] => false
  | [], _ :: _ => true
  | _ :: _, [] => false
  | a :: as, b :: bs =>
    if a < b then true
    else if b < a then false
    else charsLt as bs

/-! ## JSON values and Python dicts

`_make_request` returns parsed JSON; dicts are modelled as ordered association
lists (CPython dicts preserve insertion order, and assignment to an existing
key updates the value in place). -/

/-- A JSON value (booleans are not needed by any code path of the program). -/
inductive J where
  | null : J
  | num (n : Int) : J
  | str (s : String) : J
  | arr (xs : List J) : J
  | obj (fields : List (String × J)) : J

/-- Dict lookup: `d[k]` / the key side of `d.get(k)`. -/
def jLookup (d : List (String × J)) (k : String) : Option J :=
  match d with
  | [] => none
  | (k', v) :: rest => if k' = k then some v else jLookup rest k

/-- Python `d.get(k, default)`. -/
def jGetD (d : List (String × J)) (k : String) (dflt : J) : J :=
  (jLookup d k).getD dflt

/-- Dict assignment `d[k] = v`: update in place if the key exists, else append
(CPython insertion-order semantics). -/
def dictSet (d : List (String × J)) (k : String) (v : J) : List (String × J) :=
  match d with
  | [] => [(k, v)]
  | (k', v') :: rest => if k' = k then (k, v) :: rest else (k', v') :: dictSet rest k v

/-- Python truthiness of a JSON value. -/
def pyTruthy : J → Bool
  | .null => false
  | .num n => n != 0
  | .str s => s != ""
  | .arr xs => !xs.isEmpty
  | .obj fs => !fs.isEmpty

/-- Python `key in v` for a string `key`.  `none` models the `TypeError`
CPython raises when `v` is an `int` or `None`. -/
def pyIn (key : String) : J → Option Bool
  | .obj fs => some (jLookup fs key).isSome
  | .str s => some (containsSub key.data s.data)
  | .arr xs => some (xs.any fun x => match x with | .str s => s == key | _ => false)
  | _ => none

/-- Python subscript `v[key]` for a string `key`.  `none` models the
`TypeError`/`KeyError` CPython raises on non-dict values or missing keys. -/
def jIndex (v : J) (key : String) : Option J :=
  match v with
  | .obj fs => jLookup fs key
  | _ => none

/-- Python `f"{v}"` for the JSON values the program interpolates.  Lists and
dicts would be rendered via `repr`; that corner is not modelled (`none`) and
is excluded from every theorem's hypotheses. -/
def pyFStr : J → Option String
  | .str s => some s
  | .num n => some (toString n)
  | .null => some "None"
  | _ => none

/-! ## `extract_repo_info` (src/main.py lines 228-264) -/

/-- `if url.endswith('/'): url = url[:-1]` (lines 243-244). -/
def dropTrailingSlash (url : List Char) : List Char :=
  if url.getLast? = some '/' then url.dropLast else url

/-- The `parts` list computed by `extract_repo_info` (lines 239-255):
strip, drop one trailing slash, branch on the URL scheme, strip the host
pattern by global replacement, and split on `'/'`. -/
def repoRefParts (repo_url : String) : List (List Char) :=
  let url := dropTrailingSlash (pyStrip repo_url.data)
  if pyStartsWith "https://".data url then
    pySplit ['/'] (pyReplace "https://github.com/".data [] url)
  else if pyStartsWith "git@github.com:".data url then
    pySplit ['/'] (pyReplace "git@github.com:".data [] url)
  else
    pySplit ['/'] url

/-- `extract_repo_info` (lines 228-264).  `Except.error` models the raised
`ValueError` when fewer than two path segments result. -/
def extract_repo_info (repo_url : String) : Except String (String × String) :=
  match repoRefParts repo_url with
  | owner :: name :: _ => .ok (String.mk owner, String.mk name)
  | _ => .error ("Could not extract owner and repo name from URL: " ++ repo_url)

/-! ## `_make_request` (src/main.py lines 37-70) -/

/-- What `_make_request` does with one HTTP response (lines 58-70). -/
inductive ReqOutcome where
  | success (body : J)
  | retryAfterWait
  | emptyDict

/-- Response dispatch of `_make_request` (lines 58-70): 200 returns the body,
a 403 whose body message contains `"rate limit"` (case-insensitively) sleeps
and retries, anything else prints the error and returns `{}`.  `none` models
the exception raised when, on a 403, `response.json().get('message', '')`
is applied to a non-dict body or `.lower()` to a non-string message. -/
def classify_response (status : Nat) (body : J) : Option ReqOutcome :=
  if status = 200 then some (.success body)
  else if status = 403 then
    match body with
    | .obj fs =>
      match jLookup fs "message" with
      | none => some .emptyDict
      | some (.str m) =>
        if containsSub "rate limit".data (pyLower m.data) then some .retryAfterWait
        else some .emptyDict
      | some _ => none
    | _ => none
  else some .emptyDict

/-- Observable steps of one `_make_request` call, up to sending. -/
inductive Event where
  | sleep (seconds : ℚ)
  | send

/-- The pre-send sleep duration (lines 41-48): when the remaining quota is
known and `≤ 1`, sleep `reset_epoch - now + 5` seconds if positive.  The
source stores `rate_limit_remaining`/`rate_limit_reset` together (lines
53-56), so `reset_epoch` is known whenever `remaining` is. -/
def pre_send_sleep (remaining : Option Int) (reset_epoch : Int) (now : ℚ) : ℚ :=
  match remaining with
  | some r =>
    if r ≤ 1 then
      if 0 < (reset_epoch : ℚ) - now + 5 then (reset_epoch : ℚ) - now + 5 else 0
    else 0
  | none => 0

/-- The events of one `_make_request` call up to the `requests.get` (lines
41-50): the rate-limit pre-check sleep (when positive) happens before the
request is sent. -/
def make_request_events (remaining : Option Int) (reset_epoch : Int) (now : ℚ) : List Event :=
  (if 0 < pre_send_sleep remaining reset_epoch now then
    [Event.sleep (pre_send_sleep remaining reset_epoch now)]
  else []) ++ [Event.send]

/-! ## `get_repository_contributors` (src/main.py lines 72-97)

The loop is modelled against an oracle `resp : page ↦ JSON result` (what
`_make_request` returns for that page) plus explicit fuel, since the Python
loop has no bound of its own; the model also records the requested page
numbers.  `if not response_data or not isinstance(response_data, list):
break` stops without extending on a non-list or empty result (the following
`if not response_data: break` in the source is unreachable); otherwise the
page is appended and the loop stops after a page of fewer than 100 items. -/
def fetch_contributors_go (resp : Nat → J) :
    Nat → Nat → List J → List Nat → Option (List J × List Nat)
  | 0, _, _, _ => none
  | fuel + 1, page, acc, reqs =>
    match resp page with
    | .arr xs =>
      if xs.isEmpty then some (acc, reqs ++ [page])
      else if xs.length < 100 then some (acc ++ xs, reqs ++ [page])
      else fetch_contributors_go resp fuel (page + 1) (acc ++ xs) (reqs ++ [page])
    | _ => some (acc, reqs ++ [page])

/-- `get_repository_contributors` (lines 72-97): pages start at 1. -/
def get_repository_contributors (resp : Nat → J) (fuel : Nat) :
    Option (List J × List Nat) :=
  fetch_contributors_go resp fuel 1 [] []

/-! ## `get_user_social_links` (src/main.py lines 117-151) -/

/-- Blog-URL classification (lines 123-141), producing the initial
`social_links` dict.  `none` models the `AttributeError` raised by
`.startswith` when `blog` is truthy but not a string. -/
def blogStep (user_data : List (String × J)) : Option (List (String × J)) :=
  match jLookup user_data "blog" with
  | some bv =>
    if pyTruthy bv then
      match bv with
      | .str blog_url =>
        if pyStartsWith "http".data blog_url.data then
          let domain :=
            pyLower ((pySplit ['/'] ((pySplit "//".data blog_url.data).getLastD [])).headD [])
          some
            (if containsSub "twitter.com".data domain || containsSub "x.com".data domain then
              dictSet [] "Twitter" bv
            else if containsSub "linkedin.com".data domain then dictSet [] "LinkedIn" bv
            else if containsSub "facebook.com".data domain then dictSet [] "Facebook" bv
            else if containsSub "instagram.com".data domain then dictSet [] "Instagram" bv
            else if containsSub "github.com".data domain then dictSet [] "GitHub" bv
            else dictSet [] "Website" bv)
        else some []
      | _ => none
    else some []
  | none => some []

/-- `if user_data.get("html_url"): social_links["GitHub"] = user_data["html_url"]`
(lines 143-145). -/
def htmlStep (sl : List (String × J)) (user_data : List (String × J)) : List (String × J) :=
  match jLookup user_data "html_url" with
  | some hv => if pyTruthy hv then dictSet sl "GitHub" hv else sl
  | none => sl

/-- `if user_data.get("twitter_username"): social_links["Twitter"] = f"https://twitter.com/{...}"`
(lines 147-149). -/
def twitterStep (sl : List (String × J)) (user_data : List (String × J)) :
    Option (List (String × J)) :=
  match jLookup user_data "twitter_username" with
  | some tv =>
    if pyTruthy tv then
      match pyFStr tv with
      | some t => some (dictSet sl "Twitter" (J.str ("https://twitter.com/" ++ t)))
      | none => none
    else some sl
  | none => some sl

/-- `get_user_social_links` (lines 117-151). -/
def get_user_social_links (user_data : List (String × J)) : Option (List (String × J)) :=
  match blogStep user_data with
  | some sl => twitterStep (htmlStep sl user_data) user_data
  | none => none

/-! ## Latest-commit-date extraction (src/main.py lines 176-182) -/

/-- Lines 176-182 of `analyze_repository`: `none` models a raised exception
(`TypeError` from `in` over an int/None nested value, or from subscripting a
non-dict), `some none` models `latest_commit_date = None`, and
`some (some d)` a successfully extracted date. -/
def latest_commit_date_of (recent_commits : J) : Option (Option J) :=
  match recent_commits with
  | .arr (first :: _) =>
    match first with
    | .obj fs =>
      match jLookup fs "commit" with
      | some commit_info =>
        match pyIn "author" commit_info with
        | none => none
        | some false => some none
        | some true =>
          match jIndex commit_info "author" with
          | none => none
          | some av =>
            match pyIn "date" av with
            | none => none
            | some false => some none
            | some true =>
              match jIndex av "date" with
              | some d => some (some d)
              | none => none
      | none => some none
    | _ => some none
  | _ => some none

/-! ## One enriched contributor record (src/main.py lines 164-199) -/

/-- The record appended to `contributor_details` (lines 187-199). -/
structure Enriched where
  username : String
  name : J
  email : J
  bio : J
  company : J
  location : J
  avatar_url : J
  profile_url : J
  contributions : J
  latest_commit_date : Option J
  social_links : List (String × J)

/-- The loop body of `analyze_repository` for one contributor (lines
176-199), given the fetched `user_data` dict and `recent_commits` JSON. -/
def enrich_contributor (username : String) (avatar_url contributions : J)
    (user_data : List (String × J)) (recent_commits : J) : Option Enriched :=
  match latest_commit_date_of recent_commits, get_user_social_links user_data with
  | some lcd, some sl =>
    some
      { username := username
        name := jGetD user_data "name" (J.str "")
        email := jGetD user_data "email" (J.str "")
        bio := jGetD user_data "bio" (J.str "")
        company := jGetD user_data "company" (J.str "")
        location := jGetD user_data "location" (J.str "")
        avatar_url := avatar_url
        profile_url := jGetD user_data "html_url" (J.str "")
        contributions := contributions
        latest_commit_date := lcd
        social_links := sl }
  | _, _ => none

/-! ## Report sorting (src/main.py lines 201-206) -/

/-- The sort key `x["latest_commit_date"] or "0"` (line 204): a falsy date
(`None` or `""`) becomes `"0"`.  The dates the program produces are JSON
strings or null; a non-string non-null date would make CPython's comparison
raise `TypeError` inside `sorted` and is excluded from every theorem's
hypotheses. -/
def sortDateKey (e : Enriched) : List Char :=
  match e.latest_commit_date with
  | some (J.str s) => if s.data = [] then ['0'] else s.data
  | _ => ['0']

/-- The comparison `sorted(..., key=..., reverse=True)` effects: `a` may come
before `b` iff `key a` is not below `key b` (descending; ties keep input
order because CPython's sort is stable). -/
def dateLe (a b : Enriched) : Bool :=
  !(charsLt (sortDateKey a) (sortDateKey b))

/-- Lines 201-206: `sorted(contributor_details, key=..., reverse=True)`.
CPython specifies `sorted` as a stable sort; the model realizes that
specification with a stable insertion sort over the same comparison: `a` may
precede `b` exactly when `a`'s key is not strictly below `b`'s (descending),
and key-ties keep input order. -/
def sort_contributors (l : List Enriched) : List Enriched :=
  l.insertionSort fun a b => dateLe a b = true

/-! ## Script-level request trace (src/main.py lines 153-174 and 267-274) -/

/-- One HTTP request the script can issue. -/
inductive Req where
  | contributorsPage (owner repo : String) (page : Nat)
  | userDetails (login : String)
  | commits (owner repo login : String)

/-- `contributor["login"]` for each fetched contributor (line 165); `none`
models the exception on a non-dict entry or missing key.  Only string logins
are modelled (the URL interpolation of a non-string login is never reached in
any theorem). -/
def loginsOf : List J → Option (List String)
  | [] => some []
  | c :: rest =>
    match c with
    | .obj fs =>
      match jLookup fs "login" with
      | some (J.str u) => (loginsOf rest).map fun us => u :: us
      | some _ => none
      | none => none
    | _ => none

/-- The requests issued by `analyze_repository` (lines 153-174): the
contributor pages, then per contributor the user-details and commits calls. -/
def analyze_trace (owner repo : String) (pages : Nat → J) (fuel : Nat) :
    Option (List Req) :=
  match get_repository_contributors pages fuel with
  | none => none
  | some (items, pageNums) =>
    match loginsOf items with
    | none => none
    | some us =>
      some (pageNums.map (Req.contributorsPage owner repo) ++
        us.flatMap fun u => [Req.userDetails u, Req.commits owner repo u])

/-- The requests issued by the whole script (lines 267-274):
`extract_repo_info` runs at line 267, before the analyzer exists, so a parse
failure issues no request at all. -/
def script_trace (pages : Nat → J) (fuel : Nat) (repo_url : String) :
    Option (List Req) :=
  match extract_repo_info repo_url with
  | .error _ => some []
  | .ok (owner, repo) => analyze_trace owner repo pages fuel

/-! ## Predicates used to state the claims -/

/-- A path segment fit for `owner` or `name`: non-empty, and free of `'/'`
(segment separator), `':'` (present in both host patterns that
`extract_repo_info` strips by global replacement) and whitespace (stripped at
the ends). -/
def segOK (xs : List Char) : Prop :=
  xs ≠ [] ∧ ∀ d ∈ xs, d ≠ '/' ∧ d ≠ ':' ∧ isPySpace d = false

/-- A trailing extra path (`tree/master/...`): non-empty, free of `':'` and
whitespace, not ending in `'/'` (internal slashes are fine). -/
def extraOK (xs : List Char) : Prop :=
  xs ≠ [] ∧ (∀ d ∈ xs, d ≠ ':' ∧ isPySpace d = false) ∧ xs.getLast? ≠ some '/'

instance (xs : List Char) : Decidable (segOK xs) :=
  inferInstanceAs (Decidable (xs ≠ [] ∧ ∀ d ∈ xs, d ≠ '/' ∧ d ≠ ':' ∧ isPySpace d = false))

instance (xs : List Char) : Decidable (extraOK xs) :=
  inferInstanceAs (Decidable
    (xs ≠ [] ∧ (∀ d ∈ xs, d ≠ ':' ∧ isPySpace d = false) ∧ xs.getLast? ≠ some '/'))

/-- When the status is 403, `_make_request` evaluates
`response.json().get('message', '').lower()`, which only avoids an exception
when the body is a JSON object whose `message` value, if present, is a
string. -/
def msgSafe (status : Nat) (body : J) : Prop :=
  status = 403 →
    match body with
    | J.obj fs =>
      match jLookup fs "message" with
      | none => True
      | some (J.str _) => True
      | some _ => False
    | _ => False

/-- A rate-limit 403: a 403 whose body message contains the case-insensitive
substring "rate limit". -/
def isRateLimit403 (status : Nat) (body : J) : Prop :=
  status = 403 ∧ ∃ fs m, body = J.obj fs ∧ jLookup fs "message" = some (J.str m) ∧
    containsSub "rate limit".data (pyLower m.data) = true

/-- The malformed commit payloads on which lines 176-182 provably reach
`latest_commit_date = None` without touching a value whose membership test
could raise: a non-list, an empty list, a non-dict first element, or missing
`commit`/`author`/`date` keys along the nested dicts. -/
def benignCommits (rc : J) : Bool :=
  match rc with
  | .arr (first :: _) =>
    match first with
    | .obj fs =>
      match jLookup fs "commit" with
      | none => true
      | some (J.obj cf) =>
        match jLookup cf "author" with
        | none => true
        | some (J.obj af) => (jLookup af "date").isNone
        | some _ => false
      | some _ => false
    | _ => true
  | _ => true

/-- A full contributor page: a JSON list of at least 100 items (the loop
continues exactly when `len(response_data) < 100` is false). -/
def isFullPage (j : J) : Bool :=
  match j with
  | .arr xs => decide (100 ≤ xs.length)
  | _ => false

/-- A page on which the loop stops: a non-list, or a list of fewer than 100
items (including the empty list). -/
def isStopPage (j : J) : Bool :=
  match j with
  | .arr xs => decide (xs.length < 100)
  | _ => true

/-- The items of a JSON list result. -/
def pageItems (j : J) : List J :=
  match j with
  | .arr xs => xs
  | _ => []

/-- The items the loop keeps from the page it stops on: a short non-empty
list is extended before the `len < 100` break; an empty or non-list result
breaks before the extend. -/
def stopItems (j : J) : List J :=
  match j with
  | .arr xs => if xs.isEmpty then [] else if xs.length < 100 then xs else []
  | _ => []

/-- A `blog` value on which `get_user_social_links` cannot raise: absent,
a string, or falsy. -/
def blogSafe (u : List (String × J)) : Prop :=
  match jLookup u "blog" with
  | some (J.str _) => True
  | some v => pyTruthy v = false
  | none => True

/-- A `twitter_username` value whose f-string interpolation is modelled:
anything but a JSON list or object. -/
def twitterSafe (u : List (String × J)) : Prop :=
  match jLookup u "twitter_username" with
  | some (J.arr _) => False
  | some (J.obj _) => False
  | _ => True

/-- A plausible ISO-8601 UTC timestamp for the purpose of the sort: at least
two characters and starting with a digit.  Every string of the shape
`YYYY-MM-DDTHH:MM:SSZ` satisfies this, and it is exactly what makes the
string compare above the sentinel `"0"`. -/
def isoDateLike (s : String) : Bool :=
  match s.data with
  | c :: _ :: _ => c.isDigit
  | _ => false

/-- A date field as the program produces it: null, or an ISO-like date
string. -/
def dateOK (e : Enriched) : Prop :=
  e.latest_commit_date = none ∨
    ∃ s, e.latest_commit_date = some (J.str s) ∧ isoDateLike s = true

/-- A fake contributors endpoint: pages 1 and 2 hold 100 items, page 3 holds
37. -/
def demoPages : Nat → J := fun p =>
  if p ≤ 2 then J.arr (List.replicate 100 (J.obj [])) else J.arr (List.replicate 37 (J.obj []))

/-- An enriched record with only the username and date populated, for
exercising the report sort. -/
def mkReportRow (u : String) (d : Option J) : Enriched :=
  { username := u, name := J.str "", email := J.str "", bio := J.str "",
    company := J.str "", location := J.str "", avatar_url := J.str "",
    profile_url := J.str "", contributions := J.num 1,
    latest_commit_date := d, social_links := [] }

/-- The input order of the sort example: dates
`["2024-01-01T00:00:00Z", null, "2024-03-01T00:00:00Z", null]`, tagged `"1"`
to `"4"` by input position. -/
def demoReport : List Enriched :=
  [mkReportRow "1" (some (J.str "2024-01-01T00:00:00Z")),
   mkReportRow "2" none,
   mkReportRow "3" (some (J.str "2024-03-01T00:00:00Z")),
   mkReportRow "4" none]

/-! ## Helper lemmas about the string primitives -/

theorem isPrefixOf_append_self : ∀ (p t : List Char), p.isPrefixOf (p ++ t) = true
  | [], _ => by simp
  | a :: as, t => by
    simp only [List.cons_append, List.isPrefixOf_cons₂_self]
    exact isPrefixOf_append_self as t

theorem eq_append_of_isPrefixOf :
    ∀ (p : List Char) {s : List Char}, p.isPrefixOf s = true → s = p ++ s.drop p.length
  | [], s, _ => by simp
  | a :: as, [], h => by simp [List.isPrefixOf] at h
  | a :: as, b :: bs, h => by
    simp only [List.isPrefixOf, Bool.and_eq_true, beq_iff_eq] at h
    obtain ⟨rfl, h2⟩ := h
    simpa using eq_append_of_isPrefixOf as h2

theorem mem_of_isPrefixOf {p s : List Char} (h : p.isPrefixOf s = true) :
    ∀ c ∈ p, c ∈ s := by
  intro c hc
  rw [eq_append_of_isPrefixOf p h]
  exact List.mem_append_left _ hc

theorem isPrefixOf_false_of_head_ne (a b : Char) (as bs : List Char) (h : a ≠ b) :
    (a :: as).isPrefixOf (b :: bs) = false := by
  simp [List.isPrefixOf, h]

theorem containsSub_eq_false {p : List Char} {c : Char} (hc : c ∈ p) :
    ∀ {s : List Char}, (∀ d ∈ s, d ≠ c) → containsSub p s = false := by
  intro s
  induction s with
  | nil =>
    intro _
    match p, hc with
    | a :: as, _ => rfl
  | cons d ds ih =>
    intro hs
    have h1 : p.isPrefixOf (d :: ds) = false := by
      by_contra hb
      have := mem_of_isPrefixOf (Bool.of_not_eq_false hb) c hc
      exact hs c this rfl
    simp only [containsSub, h1, Bool.false_or]
    exact ih fun d hd => hs d (List.mem_cons_of_mem _ hd)

theorem pyReplaceF_irrel (old new : List Char) :
    ∀ (f1 : Nat) {f2 : Nat} {s : List Char}, s.length ≤ f1 → s.length ≤ f2 →
      pyReplaceF old new f1 s = pyReplaceF old new f2 s := by
  intro f1
  induction f1 with
  | zero =>
    intro f2 s h1 _
    have : s = [] := List.eq_nil_of_length_eq_zero (Nat.le_zero.mp h1)
    subst this
    cases f2 <;> rfl
  | succ f ih =>
    intro f2 s h1 h2
    match s with
    | [] => cases f2 <;> rfl
    | c :: cs =>
      match f2 with
      | 0 => simp at h2
      | g + 1 =>
        simp only [List.length_cons, Nat.add_le_add_iff_right] at h1 h2
        simp only [pyReplaceF]
        split
        · next hk =>
          have hlen : ((c :: cs).drop old.length).length ≤ cs.length := by
            have : 0 < old.length := List.length_pos.mpr hk.1
            simp only [List.length_drop, List.length_cons]
            omega
          rw [ih (Nat.le_trans hlen h1) (Nat.le_trans hlen h2)]
        · rw [ih h1 h2]

theorem pyReplace_cons (old new : List Char) (c : Char) (cs : List Char) :
    pyReplace old new (c :: cs) =
      if old ≠ [] ∧ old.isPrefixOf (c :: cs) then
        new ++ pyReplace old new ((c :: cs).drop old.length)
      else c :: pyReplace old new cs := by
  unfold pyReplace
  simp only [List.length_cons, pyReplaceF]
  split
  · next hk =>
    have hlen : ((c :: cs).drop old.length).length ≤ cs.length := by
      have : 0 < old.length := List.length_pos.mpr hk.1
      simp only [List.length_drop, List.length_cons]
      omega
    rw [pyReplaceF_irrel old new cs.length hlen (Nat.le_refl _)]
  · rfl

theorem pyReplace_append_self {old : List Char} (new : List Char) (hne : old ≠ [])
    (s : List Char) : pyReplace old new (old ++ s) = new ++ pyReplace old new s := by
  match old, hne with
  | o :: os, _ =>
    rw [List.cons_append, pyReplace_cons]
    rw [if_pos ⟨List.cons_ne_nil o os,
      by rw [← List.cons_append]; exact isPrefixOf_append_self _ s⟩]
    rw [← List.cons_append, List.drop_left]

theorem pyReplace_eq_self {old new : List Char} :
    ∀ {s : List Char}, containsSub old s = false → pyReplace old new s = s := by
  intro s
  induction s with
  | nil => intro _; rfl
  | cons c cs ih =>
    intro h
    simp only [containsSub, Bool.or_eq_false_iff] at h
    rw [pyReplace_cons, if_neg fun hk => by rw [hk.2] at h; exact absurd h.1 (by simp)]
    rw [ih h.2]

theorem pySplit_cons_sep (c : Char) (rest : List Char) :
    pySplit [c] (c :: rest) = [] :: pySplit [c] rest := by
  unfold pySplit
  simp only [List.length_cons, pySplitF]
  rw [if_pos ⟨by simp, by simp [List.isPrefixOf]⟩]
  rfl

theorem pySplit_ne_nil (sep : List Char) (s : List Char) : pySplit sep s ≠ [] := by
  match s with
  | [] => simp [pySplit, pySplitF]
  | c :: cs =>
    unfold pySplit
    simp only [List.length_cons, pySplitF]
    split
    · simp
    · cases hm : pySplitF sep cs.length cs with
      | nil => simp [hm]
      | cons t ts => simp [hm]

theorem pySplit_seg {c : Char} :
    ∀ {seg : List Char}, (∀ d ∈ seg, d ≠ c) → ∀ (rest : List Char),
      pySplit [c] (seg ++ c :: rest) = seg :: pySplit [c] rest := by
  intro seg
  induction seg with
  | nil => intro _ rest; simpa using pySplit_cons_sep c rest
  | cons d ds ih =>
    intro hseg rest
    have hdc : d ≠ c := hseg d (List.mem_cons_self d ds)
    rw [List.cons_append]
    unfold pySplit
    simp only [List.length_cons, pySplitF]
    rw [if_neg fun hk => by
      have := isPrefixOf_false_of_head_ne c d [] (ds ++ c :: rest)
        fun h => hdc h.symm
      rw [this] at hk
      exact Bool.false_ne_true hk.2]
    have hfold : pySplitF [c] (ds ++ c :: rest).length (ds ++ c :: rest) =
        pySplit [c] (ds ++ c :: rest) := rfl
    rw [hfold, ih (fun d hd => hseg d (List.mem_cons_of_mem _ hd)) rest]
    rfl

theorem pySplit_no_sep {c : Char} :
    ∀ {s : List Char}, (∀ d ∈ s, d ≠ c) → pySplit [c] s = [s] := by
  intro s
  induction s with
  | nil => intro _; rfl
  | cons d ds ih =>
    intro hs
    have hdc : d ≠ c := hs d (List.mem_cons_self d ds)
    unfold pySplit
    simp only [List.length_cons, pySplitF]
    rw [if_neg fun hk => by
      have := isPrefixOf_false_of_head_ne c d [] ds fun h => hdc h.symm
      rw [this] at hk
      exact Bool.false_ne_true hk.2]
    have hfold : pySplitF [c] ds.length ds = pySplit [c] ds := rfl
    rw [hfold, ih fun d hd => hs d (List.mem_cons_of_mem _ hd)]

theorem dropWhile_eq_self_of_forall {p : Char → Bool} {s : List Char}
    (h : ∀ d ∈ s, p d = false) : s.dropWhile p = s := by
  match s with
  | [] => rfl
  | a :: l => simp [List.dropWhile_cons, h a (List.mem_cons_self a l)]

theorem pyStrip_eq_self {s : List Char} (h : ∀ d ∈ s, isPySpace d = false) :
    pyStrip s = s := by
  unfold pyStrip
  rw [dropWhile_eq_self_of_forall h,
    dropWhile_eq_self_of_forall fun d hd => h d (List.mem_reverse.mp hd),
    List.reverse_reverse]

theorem dropTrailingSlash_of_ne {s : List Char} (h : s.getLast? ≠ some '/') :
    dropTrailingSlash s = s :=
  if_neg h

theorem dropTrailingSlash_concat (s : List Char) :
    dropTrailingSlash (s ++ ['/']) = s := by
  unfold dropTrailingSlash
  rw [if_pos (List.getLast?_concat s), List.dropLast_concat]

/-! ## Helper lemmas about `charsLt` (CPython string comparison) -/

theorem charsLt_irrefl : ∀ s, charsLt s s = false
  | [] => rfl
  | a :: as => by simp [charsLt, charsLt_irrefl as]

theorem charsLt_asymm : ∀ {x y}, charsLt x y = true → charsLt y x = false
  | [], [], h => by simp [charsLt] at h
  | [], _ :: _, _ => rfl
  | _ :: _, [], h => by simp [charsLt] at h
  | a :: as, b :: bs, h => by
    by_cases hab : a < b
    · have h1 : ¬b < a := asymm hab
      simp [charsLt, h1, hab]
    · by_cases hba : b < a
      · simp [charsLt, hab, hba] at h
      · simp only [charsLt, if_neg hab, if_neg hba] at h
        simp [charsLt, hab, hba, charsLt_asymm h]

theorem charsLt_trans : ∀ {x y z}, charsLt x y = true → charsLt y z = true →
    charsLt x z = true
  | [], [], _, h1, _ => by simp [charsLt] at h1
  | [], _ :: _, [], _, h2 => by simp [charsLt] at h2
  | [], _ :: _, _ :: _, _, _ => rfl
  | _ :: _, [], _, h1, _ => by simp [charsLt] at h1
  | _ :: _, _ :: _, [], _, h2 => by simp [charsLt] at h2
  | a :: as, b :: bs, c :: cs, h1, h2 => by
    by_cases hab : a < b
    · by_cases hbc : b < c
      · simp [charsLt, lt_trans hab hbc]
      · by_cases hcb : c < b
        · simp [charsLt, hbc, hcb] at h2
        · have : b = c := le_antisymm (not_lt.mp hcb) (not_lt.mp hbc)
          subst this
          simp [charsLt, hab]
    · by_cases hba : b < a
      · simp [charsLt, hab, hba] at h1
      · have : a = b := le_antisymm (not_lt.mp hba) (not_lt.mp hab)
        subst this
        simp only [charsLt, if_neg hab, if_neg hba] at h1
        by_cases hbc : a < c
        · simp [charsLt, hbc]
        · by_cases hcb : c < a
          · simp [charsLt, hbc, hcb] at h2
          · simp only [charsLt, if_neg hbc, if_neg hcb] at h2 ⊢
            exact charsLt_trans h1 h2

theorem charsLt_conn : ∀ {x y}, charsLt x y = false → charsLt y x = false → x = y
  | [], [], _, _ => rfl
  | [], _ :: _, h1, _ => by simp [charsLt] at h1
  | _ :: _, [], _, h2 => by simp [charsLt] at h2
  | a :: as, b :: bs, h1, h2 => by
    by_cases hab : a < b
    · simp [charsLt, hab] at h1
    · by_cases hba : b < a
      · simp [charsLt, hba] at h2
      · have hab' : a = b := le_antisymm (not_lt.mp hba) (not_lt.mp hab)
        subst hab'
        simp only [charsLt, if_neg hab, if_neg hba] at h1 h2
        rw [charsLt_conn h1 h2]

theorem dateLe_trans (a b c : Enriched) :
    dateLe a b → dateLe b c → dateLe a c := by
  simp only [dateLe, Bool.not_eq_true', Bool.not_eq_true]
  intro h1 h2
  cases hac : charsLt (sortDateKey a) (sortDateKey c) with
  | false => rfl
  | true =>
    cases hba : charsLt (sortDateKey b) (sortDateKey a) with
    | true => rw [charsLt_trans hba hac] at h2; exact h2
    | false =>
      rw [charsLt_conn h1 hba] at hac
      rw [hac] at h2
      exact h2

theorem dateLe_total (a b : Enriched) : dateLe a b || dateLe b a := by
  simp only [dateLe, Bool.or_eq_true, Bool.not_eq_true']
  cases hab : charsLt (sortDateKey a) (sortDateKey b) with
  | false => exact Or.inl rfl
  | true => exact Or.inr (charsLt_asymm hab)

/-! ## Helper lemmas about `dictSet` -/

theorem jLookup_dictSet_self (d : List (String × J)) (k : String) (v : J) :
    jLookup (dictSet d k v) k = some v := by
  induction d with
  | nil => simp [dictSet, jLookup]
  | cons p rest ih =>
    by_cases h : p.1 = k
    · simp [dictSet, h, jLookup]
    · simp [dictSet, h, jLookup, ih]

theorem jLookup_dictSet_of_ne (d : List (String × J)) {k k' : String} (v : J)
    (h : k ≠ k') : jLookup (dictSet d k v) k' = jLookup d k' := by
  induction d with
  | nil => simp [dictSet, jLookup, h]
  | cons p rest ih =>
    by_cases hp : p.1 = k
    · simp [dictSet, hp, jLookup, h]
    · simp [dictSet, hp, jLookup, ih]

/-! ## Claim C9: invalid reference fails before any network call -/

/-- C9: every input string whose normalization yields fewer than two path
segments makes `extract_repo_info` raise the `ValueError` modelled by
`Except.error`, and the script issues no HTTP request in that case, since
`extract_repo_info` runs (line 267) before the analyzer is even created. -/
theorem c9_invalid_reference (s : String) (pages : Nat → J) (fuel : Nat)
    (h : (repoRefParts s).length < 2) :
    (∃ msg, extract_repo_info s = .error msg) ∧ script_trace pages fuel s = some [] := by
  have herr : extract_repo_info s =
      .error ("Could not extract owner and repo name from URL: " ++ s) := by
    rcases hm : repoRefParts s with _ | ⟨x, _ | ⟨y, rest⟩⟩
    · unfold extract_repo_info; rw [hm]
    · unfold extract_repo_info; rw [hm]
    · rw [hm] at h; simp only [List.length_cons] at h; omega
  refine ⟨⟨_, herr⟩, ?_⟩
  unfold script_trace
  rw [herr]

/-- C9 witness: the single-segment input `"acme"`. -/
theorem c9_invalid_reference_witness :
    (repoRefParts "acme").length < 2 ∧
      ((∃ msg, extract_repo_info "acme" = .error msg) ∧
        script_trace (fun _ => J.obj []) 0 "acme" = some []) :=
  ⟨by decide, c9_invalid_reference "acme" (fun _ => J.obj []) 0 (by decide)⟩

/-! ## Claim C10: https URL with a non-github.com host -/

/-- C10: an input that (after stripping and removing one trailing slash)
starts with `"https://"` but contains no occurrence of
`"https://github.com/"` does not fail: the `replace` strips nothing, the raw
URL is split on `"/"`, and the parser returns owner `"https:"` and name
`""`. -/
theorem c10_non_github_https (s : String)
    (h1 : pyStartsWith "https://".data (dropTrailingSlash (pyStrip s.data)) = true)
    (h2 : containsSub "https://github.com/".data
      (dropTrailingSlash (pyStrip s.data)) = false) :
    extract_repo_info s = .ok ("https:", "") := by
  have hu := eq_append_of_isPrefixOf "https://".data h1
  have hparts : repoRefParts s =
      "https:".data :: [] ::
        pySplit ['/'] ((dropTrailingSlash (pyStrip s.data)).drop "https://".data.length) := by
    simp only [repoRefParts]
    rw [if_pos h1, pyReplace_eq_self h2]
    conv_lhs => rw [hu]
    rw [show "https://".data ++ (dropTrailingSlash (pyStrip s.data)).drop "https://".data.length
        = "https:".data ++
          '/' :: ('/' :: (dropTrailingSlash (pyStrip s.data)).drop "https://".data.length)
      from rfl]
    rw [pySplit_seg (by decide) _, pySplit_cons_sep]
  unfold extract_repo_info
  rw [hparts]

/-- C10 witness: `"https://example.com/acme/widgets"`. -/
theorem c10_non_github_https_witness :
    pyStartsWith "https://".data
        (dropTrailingSlash (pyStrip "https://example.com/acme/widgets".data)) = true ∧
      containsSub "https://github.com/".data
        (dropTrailingSlash (pyStrip "https://example.com/acme/widgets".data)) = false ∧
      extract_repo_info "https://example.com/acme/widgets" = .ok ("https:", "") :=
  ⟨by decide, by decide, c10_non_github_https _ (by decide) (by decide)⟩

/-! ## Claim C8: rate-limit pre-check -/

/-- C8: whenever the known remaining quota is `≤ 1`, the client computes
`sleep_seconds = reset_epoch - now + 5` and, if it is positive, sleeps that
long before sending; in particular with `reset_epoch = now + 10` it sleeps
exactly 15 seconds (within the claimed 10-to-16-second window) before the
send. -/
theorem c8_rate_limit_precheck (r reset_epoch : Int) (now : ℚ) (hr : r ≤ 1) :
    (0 < (reset_epoch : ℚ) - now + 5 →
      make_request_events (some r) reset_epoch now =
        [Event.sleep ((reset_epoch : ℚ) - now + 5), Event.send]) ∧
    ((reset_epoch : ℚ) - now = 10 →
      make_request_events (some r) reset_epoch now = [Event.sleep 15, Event.send] ∧
        (10 : ℚ) ≤ 15 ∧ (15 : ℚ) ≤ 16) := by
  have hdef : pre_send_sleep (some r) reset_epoch now =
      if r ≤ 1 then
        if 0 < (reset_epoch : ℚ) - now + 5 then (reset_epoch : ℚ) - now + 5 else 0
      else 0 := rfl
  have hval : ∀ _ : 0 < (reset_epoch : ℚ) - now + 5,
      pre_send_sleep (some r) reset_epoch now = (reset_epoch : ℚ) - now + 5 := fun h => by
    rw [hdef, if_pos hr, if_pos h]
  constructor
  · intro h
    unfold make_request_events
    rw [hval h, if_pos h]
    rfl
  · intro h10
    have h5 : 0 < (reset_epoch : ℚ) - now + 5 := by rw [h10]; norm_num
    have h15 : (reset_epoch : ℚ) - now + 5 = 15 := by rw [h10]; norm_num
    refine ⟨?_, by norm_num, by norm_num⟩
    unfold make_request_events
    rw [hval h5, h15, if_pos (by norm_num)]
    rfl

/-- C8 witness: `remaining = 1`, `reset_epoch = now + 10` at `now = 0`. -/
theorem c8_rate_limit_precheck_witness :
    (1 : Int) ≤ 1 ∧ ((10 : Int) : ℚ) - 0 = 10 ∧
      make_request_events (some 1) 10 0 = [Event.sleep 15, Event.send] ∧
      (10 : ℚ) ≤ 15 ∧ (15 : ℚ) ≤ 16 := by
  have h := (c8_rate_limit_precheck 1 10 0 (by norm_num)).2 (by norm_num)
  exact ⟨by norm_num, by norm_num, h.1, h.2.1, h.2.2⟩

/-! ## Claim C6: non-200 degradation (corrected) -/

/-- C6 counterexample: a 403 whose JSON body is a list — which is not "a 403
whose body message contains the substring 'rate limit'", so the claim says it
must return an empty mapping — instead raises: `response.json().get(...)` is
an `AttributeError` on a list. -/
theorem c6_counterexample :
    ¬ classify_response 403 (J.arr []) = some ReqOutcome.emptyDict := by
  intro h
  rw [show classify_response 403 (J.arr []) = none from rfl] at h
  exact Option.noConfusion h

/-- C6 (amended): for every response whose status is neither 200 nor a
rate-limit 403, the wrapper reports the error and returns an empty mapping —
provided that, when the status is 403, the JSON body is an object whose
`message` value, if present, is a string (otherwise the wrapper raises
instead, see the counterexample). -/
theorem c6_non200_empty (status : Nat) (body : J) (h200 : status ≠ 200)
    (hsafe : msgSafe status body) (hrl : ¬ isRateLimit403 status body) :
    classify_response status body = some ReqOutcome.emptyDict := by
  unfold classify_response
  rw [if_neg h200]
  by_cases h403 : status = 403
  · rw [if_pos h403]
    have hs := hsafe h403
    cases body with
    | obj fs =>
      dsimp only at hs ⊢
      cases hm : jLookup fs "message" with
      | none => rfl
      | some v =>
        rw [hm] at hs
        cases v with
        | str m =>
          dsimp only
          by_cases hc : containsSub "rate limit".data (pyLower m.data) = true
          · exact absurd ⟨h403, fs, m, rfl, hm, hc⟩ hrl
          · rw [if_neg hc]
        | null => exact hs.elim
        | num n => exact hs.elim
        | arr xs => exact hs.elim
        | obj fs2 => exact hs.elim
    | null => exact hs.elim
    | num n => exact hs.elim
    | str m => exact hs.elim
    | arr xs => exact hs.elim
  · rw [if_neg h403]

/-- C6 witness: a 404 with an empty JSON-object body degrades to the empty
mapping. -/
theorem c6_non200_empty_witness :
    (404 : Nat) ≠ 200 ∧
      classify_response 404 (J.obj []) = some ReqOutcome.emptyDict :=
  ⟨by decide, c6_non200_empty 404 (J.obj []) (by decide)
    (fun h => absurd h (by decide)) (fun h => absurd h.1 (by decide))⟩

/-! ## Claim C7: malformed commit payload tolerance (corrected) -/

/-- C7 counterexample: the commits result `[{"commit": 42}]` is not a
non-empty list of dicts carrying `commit.author.date` in its first element,
so the claim says the extraction must yield null without raising — but
`"author" in 42` raises `TypeError` instead. -/
theorem c7_counterexample :
    ¬ latest_commit_date_of (J.arr [J.obj [("commit", J.num 42)]]) = some none := by
  intro h
  rw [show latest_commit_date_of (J.arr [J.obj [("commit", J.num 42)]]) = none
    from rfl] at h
  exact Option.noConfusion h

/-- C7 (amended): a date is extracted exactly from a non-empty list whose
first element is a dict with nested dicts `commit.author` carrying `date`
(and it is then the author date of the first commit); every other payload
whose nested `commit`/`author` values stay dicts — non-list, empty list,
non-dict first element, missing keys — yields null without raising; but when
a nested value is one on which Python's `in` or subscripting is undefined
(e.g. `commit` being a number, see the counterexample) the extraction raises
instead. -/
theorem c7_malformed_commit (rc : J) :
    (∀ d, latest_commit_date_of rc = some (some d) →
      ∃ fs rest cf af, rc = J.arr (J.obj fs :: rest) ∧
        jLookup fs "commit" = some (J.obj cf) ∧
        jLookup cf "author" = some (J.obj af) ∧
        jLookup af "date" = some d) ∧
    (∀ fs rest cf af d, rc = J.arr (J.obj fs :: rest) →
      jLookup fs "commit" = some (J.obj cf) →
      jLookup cf "author" = some (J.obj af) →
      jLookup af "date" = some d →
      latest_commit_date_of rc = some (some d)) ∧
    (benignCommits rc = true → latest_commit_date_of rc = some none) := by
  refine ⟨?_, ?_, ?_⟩
  · intro d h
    cases rc with
    | arr xs =>
      cases xs with
      | nil => simp [latest_commit_date_of] at h
      | cons first rest =>
        cases first with
        | obj fs =>
          unfold latest_commit_date_of at h
          dsimp only at h
          cases hm : jLookup fs "commit" with
          | none => rw [hm] at h; simp at h
          | some ci =>
            rw [hm] at h
            cases ci with
            | obj cf =>
              simp only [pyIn, jIndex] at h
              cases ha : jLookup cf "author" with
              | none => rw [ha] at h; simp at h
              | some av =>
                rw [ha] at h
                simp only [Option.isSome_some] at h
                cases av with
                | obj af =>
                  simp only [pyIn, jIndex] at h
                  cases hd : jLookup af "date" with
                  | none => rw [hd] at h; simp at h
                  | some d' =>
                    rw [hd] at h
                    simp only [Option.isSome_some, Option.some.injEq] at h
                    exact ⟨fs, rest, cf, af, rfl, hm, ha, by rw [hd, h]⟩
                | null => simp [pyIn] at h
                | num n => simp [pyIn] at h
                | str s2 =>
                  simp only [pyIn, jIndex] at h
                  cases hb : containsSub "date".data s2.data <;> rw [hb] at h <;> simp at h
                | arr xs2 =>
                  simp only [pyIn, jIndex] at h
                  cases hb : xs2.any fun x => match x with | J.str s => s == "date" | _ => false <;>
                    rw [hb] at h <;> simp at h
            | null => simp [pyIn] at h
            | num n => simp [pyIn] at h
            | str s1 =>
              simp only [pyIn, jIndex] at h
              cases hb : containsSub "author".data s1.data <;> rw [hb] at h <;> simp at h
            | arr xs1 =>
              simp only [pyIn, jIndex] at h
              cases hb : xs1.any fun x => match x with | J.str s => s == "author" | _ => false <;>
                rw [hb] at h <;> simp at h
        | null => simp [latest_commit_date_of] at h
        | num n => simp [latest_commit_date_of] at h
        | str s0 => simp [latest_commit_date_of] at h
        | arr xs0 => simp [latest_commit_date_of] at h
    | null => simp [latest_commit_date_of] at h
    | num n => simp [latest_commit_date_of] at h
    | str s => simp [latest_commit_date_of] at h
    | obj fs => simp [latest_commit_date_of] at h
  · intro fs rest cf af d h1 h2 h3 h4
    subst h1
    unfold latest_commit_date_of
    dsimp only
    rw [h2]
    simp only [pyIn, jIndex]
    rw [h3]
    simp only [Option.isSome_some]
    rw [h4]
    simp only [Option.isSome_some]
  · intro hb
    cases rc with
    | arr xs =>
      cases xs with
      | nil => rfl
      | cons first rest =>
        cases first with
        | obj fs =>
          unfold benignCommits at hb
          unfold latest_commit_date_of
          dsimp only at hb ⊢
          cases hm : jLookup fs "commit" with
          | none => rfl
          | some ci =>
            rw [hm] at hb
            cases ci with
            | obj cf =>
              dsimp only at hb ⊢
              simp only [pyIn, jIndex]
              cases ha : jLookup cf "author" with
              | none => simp
              | some av =>
                rw [ha] at hb
                simp only [Option.isSome_some]
                cases av with
                | obj af =>
                  dsimp only at hb ⊢
                  cases hd : jLookup af "date" with
                  | none => rfl
                  | some d' => rw [hd] at hb; simp at hb
                | null => simp at hb
                | num n => simp at hb
                | str s2 => simp at hb
                | arr xs2 => simp at hb
            | null => simp at hb
            | num n => simp at hb
            | str s1 => simp at hb
            | arr xs1 => simp at hb
        | null => rfl
        | num n => rfl
        | str s0 => rfl
        | arr xs0 => rfl
    | null => rfl
    | num n => rfl
    | str s => rfl
    | obj fs => rfl

/-- C7 witness: a well-formed single-commit payload yields its author date,
and the empty commits list yields null. -/
theorem c7_malformed_commit_witness :
    latest_commit_date_of
        (J.arr [J.obj [("commit",
          J.obj [("author", J.obj [("date", J.str "2024-01-01T00:00:00Z")])])]]) =
      some (some (J.str "2024-01-01T00:00:00Z")) ∧
    benignCommits (J.arr []) = true ∧
    latest_commit_date_of (J.arr []) = some none := by
  refine ⟨?_, rfl, (c7_malformed_commit (J.arr [])).2.2 rfl⟩
  exact (c7_malformed_commit _).2.1 _ [] _ _ _ rfl rfl rfl rfl


/-! ## Claim C4: profile-field defaulting -/

/-- C4: in the enriched record, each of the optional profile fields `name`,
`email`, `bio`, `company`, `location` and `profile_url` (from `html_url`)
defaults to the empty string when the fetched user profile does not supply
the key (the `user_data.get(k, "")` defaults of lines 189-195), while
`latest_commit_date` is the one field that stays null when no date is
available. -/
theorem c4_profile_defaults (username : String) (av ct : J)
    (u : List (String × J)) (rc : J) (e : Enriched)
    (he : enrich_contributor username av ct u rc = some e) :
    (jLookup u "name" = none → e.name = J.str "") ∧
    (jLookup u "email" = none → e.email = J.str "") ∧
    (jLookup u "bio" = none → e.bio = J.str "") ∧
    (jLookup u "company" = none → e.company = J.str "") ∧
    (jLookup u "location" = none → e.location = J.str "") ∧
    (jLookup u "html_url" = none → e.profile_url = J.str "") ∧
    (latest_commit_date_of rc = some none → e.latest_commit_date = none) := by
  unfold enrich_contributor at he
  cases hl : latest_commit_date_of rc with
  | none => rw [hl] at he; exact Option.noConfusion he
  | some lcd =>
    rw [hl] at he
    cases hsl : get_user_social_links u with
    | none => rw [hsl] at he; exact Option.noConfusion he
    | some sl =>
      rw [hsl] at he
      dsimp only at he
      have he' := (Option.some.injEq _ _).mp he
      subst he'
      refine ⟨?_, ?_, ?_, ?_, ?_, ?_, ?_⟩
      all_goals intro hx
      · simp [jGetD, hx]
      · simp [jGetD, hx]
      · simp [jGetD, hx]
      · simp [jGetD, hx]
      · simp [jGetD, hx]
      · simp [jGetD, hx]
      · exact ((Option.some.injEq _ _).mp hx)

/-- C4 witness: an empty profile dict and an empty commits result give empty
strings everywhere and a null `latest_commit_date`. -/
theorem c4_profile_defaults_witness :
    ∃ e, enrich_contributor "alice" (J.str "") (J.num 5) [] (J.obj []) = some e ∧
      e.name = J.str "" ∧ e.email = J.str "" ∧ e.bio = J.str "" ∧
      e.company = J.str "" ∧ e.location = J.str "" ∧ e.profile_url = J.str "" ∧
      e.latest_commit_date = none := by
  have h := c4_profile_defaults "alice" (J.str "") (J.num 5) [] (J.obj []) _ rfl
  exact ⟨_, rfl, h.1 rfl, h.2.1 rfl, h.2.2.1 rfl, h.2.2.2.1 rfl, h.2.2.2.2.1 rfl,
    h.2.2.2.2.2.1 rfl, h.2.2.2.2.2.2 rfl⟩

/-! ## Claim C1: social-link derivation precedence -/

theorem blogStep_some {u : List (String × J)} (hblog : blogSafe u) :
    ∃ sl, blogStep u = some sl := by
  unfold blogSafe at hblog
  unfold blogStep
  cases hb : jLookup u "blog" with
  | none => exact ⟨[], rfl⟩
  | some bv =>
    rw [hb] at hblog
    cases bv with
    | str blog_url =>
      dsimp only
      by_cases ht : pyTruthy (J.str blog_url) = true
      · rw [if_pos ht]
        by_cases hh : pyStartsWith "http".data blog_url.data = true
        · rw [if_pos hh]; exact ⟨_, rfl⟩
        · rw [if_neg hh]; exact ⟨[], rfl⟩
      · rw [if_neg ht]; exact ⟨[], rfl⟩
    | null => dsimp only at hblog ⊢; rw [if_neg (by simp [hblog])]; exact ⟨[], rfl⟩
    | num n => dsimp only at hblog ⊢; rw [if_neg (by simp [hblog])]; exact ⟨[], rfl⟩
    | arr xs => dsimp only at hblog ⊢; rw [if_neg (by simp [hblog])]; exact ⟨[], rfl⟩
    | obj fs => dsimp only at hblog ⊢; rw [if_neg (by simp [hblog])]; exact ⟨[], rfl⟩

theorem htmlStep_of_truthy {u : List (String × J)} {v : J} (sl : List (String × J))
    (hv : jLookup u "html_url" = some v) (hvt : pyTruthy v = true) :
    htmlStep sl u = dictSet sl "GitHub" v := by
  unfold htmlStep
  rw [hv]
  dsimp only
  rw [if_pos hvt]

theorem twitterStep_of_str {u : List (String × J)} {t : String} (sl : List (String × J))
    (htv : jLookup u "twitter_username" = some (J.str t)) (hne : t ≠ "") :
    twitterStep sl u = some (dictSet sl "Twitter" (J.str ("https://twitter.com/" ++ t))) := by
  unfold twitterStep
  rw [htv]
  dsimp only [pyFStr]
  rw [if_pos (by simp [pyTruthy, hne])]

theorem twitterStep_some {u : List (String × J)} (htw : twitterSafe u)
    (sl : List (String × J)) :
    ∃ d, twitterStep sl u = some d ∧
      ∀ k, k ≠ "Twitter" → jLookup d k = jLookup sl k := by
  unfold twitterSafe at htw
  unfold twitterStep
  cases htv : jLookup u "twitter_username" with
  | none => exact ⟨sl, rfl, fun _ _ => rfl⟩
  | some tv =>
    rw [htv] at htw
    cases tv with
    | str t =>
      dsimp only [pyFStr]
      by_cases ht : pyTruthy (J.str t) = true
      · rw [if_pos ht]
        exact ⟨_, rfl, fun k hk => jLookup_dictSet_of_ne _ _ (Ne.symm hk)⟩
      · rw [if_neg ht]; exact ⟨sl, rfl, fun _ _ => rfl⟩
    | null =>
      dsimp only
      rw [if_neg (by simp [pyTruthy])]
      exact ⟨sl, rfl, fun _ _ => rfl⟩
    | num n =>
      dsimp only [pyFStr]
      by_cases ht : pyTruthy (J.num n) = true
      · rw [if_pos ht]
        exact ⟨_, rfl, fun k hk => jLookup_dictSet_of_ne _ _ (Ne.symm hk)⟩
      · rw [if_neg ht]; exact ⟨sl, rfl, fun _ _ => rfl⟩
    | arr xs => exact htw.elim
    | obj fs => exact htw.elim

/-- C1: on the profile of the claim the derived links are exactly
`{Twitter: https://twitter.com/foo2, GitHub: https://github.com/foo}`; and in
general (over profiles whose `blog`/`twitter_username` values cannot make the
derivation raise) a truthy `twitter_username` makes the final `Twitter` entry
the canonical URL built from it, overwriting any blog-derived entry, and a
truthy `html_url` always ends up as the `GitHub` entry. -/
theorem c1_social_link_precedence :
    (get_user_social_links
        [("blog", J.str "https://twitter.com/foo"),
         ("html_url", J.str "https://github.com/foo"),
         ("twitter_username", J.str "foo2")] =
      some [("Twitter", J.str "https://twitter.com/foo2"),
            ("GitHub", J.str "https://github.com/foo")]) ∧
    ∀ u, blogSafe u → twitterSafe u →
      ∃ d, get_user_social_links u = some d ∧
        (∀ t : String, jLookup u "twitter_username" = some (J.str t) → t ≠ "" →
          jLookup d "Twitter" = some (J.str ("https://twitter.com/" ++ t))) ∧
        (∀ v, jLookup u "html_url" = some v → pyTruthy v = true →
          jLookup d "GitHub" = some v) := by
  constructor
  · rfl
  · intro u hblog htw
    obtain ⟨sl, hsl⟩ := blogStep_some hblog
    obtain ⟨d0, hd0, hpres⟩ := twitterStep_some htw (htmlStep sl u)
    have hg : get_user_social_links u = some d0 := by
      unfold get_user_social_links
      rw [hsl]
      exact hd0
    refine ⟨d0, hg, ?_, ?_⟩
    · intro t htv hne
      have hts := twitterStep_of_str (htmlStep sl u) htv hne
      rw [hts] at hd0
      have := (Option.some.injEq _ _).mp hd0
      rw [← this]
      exact jLookup_dictSet_self _ _ _
    · intro v hv hvt
      rw [hpres "GitHub" (by decide), htmlStep_of_truthy sl hv hvt]
      exact jLookup_dictSet_self _ _ _

/-- C1 witness: the general part applied to the claim's profile. -/
theorem c1_social_link_precedence_witness :
    blogSafe
        [("blog", J.str "https://twitter.com/foo"),
         ("html_url", J.str "https://github.com/foo"),
         ("twitter_username", J.str "foo2")] ∧
    ∃ d, get_user_social_links
          [("blog", J.str "https://twitter.com/foo"),
           ("html_url", J.str "https://github.com/foo"),
           ("twitter_username", J.str "foo2")] = some d ∧
        jLookup d "Twitter" = some (J.str "https://twitter.com/foo2") ∧
        jLookup d "GitHub" = some (J.str "https://github.com/foo") := by
  refine ⟨trivial, ?_⟩
  obtain ⟨d, hd, htw, hgh⟩ := c1_social_link_precedence.2
    [("blog", J.str "https://twitter.com/foo"),
     ("html_url", J.str "https://github.com/foo"),
     ("twitter_username", J.str "foo2")] trivial trivial
  exact ⟨d, hd, htw "foo2" rfl (by decide), hgh (J.str "https://github.com/foo") rfl (by decide)⟩

/-! ## Claim C5: pagination termination and completeness -/

theorem fetch_go_spec (resp : Nat → J) :
    ∀ (m : Nat) {fuel start : Nat} (acc : List J) (reqs : List Nat),
      m < fuel →
      (∀ i, i < m → isFullPage (resp (start + i)) = true) →
      isStopPage (resp (start + m)) = true →
      fetch_contributors_go resp fuel start acc reqs =
        some (acc ++ (List.range' start m).flatMap (fun p => pageItems (resp p))
                ++ stopItems (resp (start + m)),
              reqs ++ List.range' start (m + 1)) := by
  intro m
  induction m with
  | zero =>
    intro fuel start acc reqs hfuel _ hstop
    match fuel, hfuel with
    | f + 1, _ =>
      unfold fetch_contributors_go
      rw [Nat.add_zero] at hstop
      cases hr : resp start with
      | arr xs =>
        rw [hr] at hstop
        dsimp only at hstop ⊢
        have hlt : xs.length < 100 := of_decide_eq_true hstop
        by_cases hempty : xs.isEmpty
        · rw [if_pos hempty]
          simp [stopItems, hempty, hr]
        · rw [if_neg hempty, if_pos hlt]
          simp [stopItems, hempty, hlt, hr]
      | null => dsimp only; simp [stopItems, hr]
      | num n => dsimp only; simp [stopItems, hr]
      | str s => dsimp only; simp [stopItems, hr]
      | obj fs => dsimp only; simp [stopItems, hr]
  | succ m ih =>
    intro fuel start acc reqs hfuel hfull hstop
    have h0 : isFullPage (resp start) = true := by
      have := hfull 0 (Nat.succ_pos m)
      rwa [Nat.add_zero] at this
    match fuel, hfuel with
    | f + 1, _ =>
      unfold fetch_contributors_go
      cases hr : resp start with
      | arr xs =>
        rw [hr] at h0
        dsimp only at h0 ⊢
        have hle : 100 ≤ xs.length := of_decide_eq_true h0
        have hempty : xs.isEmpty = false := by
          cases hxs : xs with
          | nil => rw [hxs] at hle; simp at hle
          | cons a l => rfl
        rw [if_neg (by simp [hempty]), if_neg (by omega)]
        have hrec := @ih f (start + 1) (acc ++ xs) (reqs ++ [start])
          (by omega)
          (fun i hi => by
            have := hfull (i + 1) (by omega)
            rwa [show start + (i + 1) = start + 1 + i from by omega] at this)
          (by rwa [show start + 1 + m = start + (m + 1) from by omega])
        rw [hrec]
        rw [show start + 1 + m = start + (m + 1) from by omega]
        simp [List.range'_succ, pageItems, hr, List.append_assoc]
      | null => rw [hr] at h0; simp [isFullPage] at h0
      | num n => rw [hr] at h0; simp [isFullPage] at h0
      | str s => rw [hr] at h0; simp [isFullPage] at h0
      | obj fs => rw [hr] at h0; simp [isFullPage] at h0

/-- C5: if pages 1..k-1 are full (at least 100 items) and page k is a
stopping page (a list of fewer than 100 items, an empty list, or a non-list),
the fetcher issues exactly the requests for pages 1..k, in order, and returns
the items of pages 1..k-1 followed by the items kept from page k (a short
non-empty list is appended before the break; an empty or non-list result is
not). -/
theorem c5_pagination (resp : Nat → J) (k fuel : Nat) (hk : 1 ≤ k) (hfuel : k ≤ fuel)
    (hfull : ∀ p, p < k → 1 ≤ p → isFullPage (resp p) = true)
    (hstop : isStopPage (resp k) = true) :
    get_repository_contributors resp fuel =
      some ((List.range' 1 (k - 1)).flatMap (fun p => pageItems (resp p))
              ++ stopItems (resp k),
            List.range' 1 k) := by
  unfold get_repository_contributors
  have hm : k - 1 < fuel := by omega
  have h1 : ∀ i, i < k - 1 → isFullPage (resp (1 + i)) = true := fun i hi =>
    hfull (1 + i) (by omega) (by omega)
  have h2 : isStopPage (resp (1 + (k - 1))) = true := by
    rwa [show 1 + (k - 1) = k from by omega]
  have hspec := fetch_go_spec resp (k - 1) [] [] hm h1 h2
  rw [hspec, show 1 + (k - 1) = k from by omega, show k - 1 + 1 = k from by omega]
  simp

/-- C5 witness: pages of 100, 100 and 37 items produce exactly 3 requests for
pages 1, 2, 3 and 237 items in page order. -/
theorem c5_pagination_witness :
    (∀ p, p < 3 → 1 ≤ p → isFullPage (demoPages p) = true) ∧
    isStopPage (demoPages 3) = true ∧
    get_repository_contributors demoPages 3 =
      some ((List.range' 1 2).flatMap (fun p => pageItems (demoPages p))
              ++ stopItems (demoPages 3),
            List.range' 1 3) ∧
    (get_repository_contributors demoPages 3).map (fun r => (r.1.length, r.2)) =
      some (237, [1, 2, 3]) := by
  refine ⟨by decide, by decide,
    c5_pagination demoPages 3 3 (by decide) (by decide) (by decide) (by decide), ?_⟩
  rfl

/-! ## Claim C2: report sorting -/

theorem isoDateLike_ne_nil {s : String} (h : isoDateLike s = true) : s.data ≠ [] := by
  intro hnil
  unfold isoDateLike at h
  rw [hnil] at h
  exact Bool.false_ne_true h

theorem charsLt_zero_of_iso {s : String} (h : isoDateLike s = true) :
    charsLt ['0'] s.data = true := by
  unfold isoDateLike at h
  cases hs : s.data with
  | nil => rw [hs] at h; exact absurd h (by simp)
  | cons c tail =>
    cases tail with
    | nil => rw [hs] at h; exact absurd h (by simp)
    | cons d rest =>
      rw [hs] at h
      dsimp only at h
      have hc : '0' ≤ c := by
        simp only [Char.isDigit, Bool.and_eq_true, decide_eq_true_eq] at h
        exact h.1
      unfold charsLt
      by_cases h0 : '0' < c
      · rw [if_pos h0]
      · have hc0 : c = '0' := le_antisymm (not_lt.mp h0) hc
        subst hc0
        rw [if_neg h0, if_neg h0]
        rfl

/-- C2: the report sort is a permutation of its input that is descending in
the plain string comparison of the keys (`latest_commit_date or "0"`); when
every date is null or an ISO-like timestamp, every null-dated entry comes
after every dated one; and ties (equal keys, in particular both-null)
preserve the input relative order, stated as: the subsequence of entries with
any fixed key is unchanged. -/
theorem c2_report_sort (l : List Enriched) (h : ∀ e ∈ l, dateOK e) :
    List.Perm (sort_contributors l) l ∧
    (sort_contributors l).Pairwise
      (fun a b => charsLt (sortDateKey a) (sortDateKey b) = false) ∧
    (sort_contributors l).Pairwise
      (fun a b => a.latest_commit_date = none → b.latest_commit_date = none) ∧
    ∀ k : List Char,
      (sort_contributors l).filter (fun e => sortDateKey e == k) =
        l.filter (fun e => sortDateKey e == k) := by
  haveI htotal : IsTotal Enriched fun a b => dateLe a b = true :=
    ⟨fun a b => by
      have hor := dateLe_total a b
      rcases (Bool.or_eq_true _ _).mp hor with h1 | h1
      · exact Or.inl h1
      · exact Or.inr h1⟩
  haveI htrans : IsTrans Enriched fun a b => dateLe a b = true :=
    ⟨fun a b c => dateLe_trans a b c⟩
  have hsorted : (sort_contributors l).Pairwise fun a b => dateLe a b = true :=
    List.sorted_insertionSort _ l
  refine ⟨List.perm_insertionSort _ l, ?_, ?_, ?_⟩
  · exact hsorted.imp fun hab => by
      simpa [dateLe, Bool.not_eq_true'] using hab
  · refine hsorted.imp_of_mem ?_
    intro a b ha hb hab hanone
    have hb' : b ∈ l := (List.mem_insertionSort _).mp hb
    rcases h b hb' with hbn | ⟨s, hbs, hiso⟩
    · exact hbn
    · exfalso
      have hka : sortDateKey a = ['0'] := by unfold sortDateKey; rw [hanone]
      have hkb : sortDateKey b = s.data := by
        unfold sortDateKey
        rw [hbs]
        exact if_neg (isoDateLike_ne_nil hiso)
      unfold dateLe at hab
      rw [hka, hkb, Bool.not_eq_true'] at hab
      rw [charsLt_zero_of_iso hiso] at hab
      exact absurd hab (by simp)
  · intro k
    have hpw : (l.filter fun e => sortDateKey e == k).Pairwise
        fun a b => dateLe a b = true := by
      apply List.pairwise_of_forall_mem_list
      intro a ha b hb
      have hak : sortDateKey a = k := by
        have := (List.mem_filter.mp ha).2
        simpa using this
      have hbk : sortDateKey b = k := by
        have := (List.mem_filter.mp hb).2
        simpa using this
      unfold dateLe
      rw [hak, hbk, charsLt_irrefl]
      rfl
    have hsub : List.Sublist (l.filter fun e => sortDateKey e == k) (sort_contributors l) :=
      List.sublist_insertionSort hpw (List.filter_sublist l)
    have hAfilter : ((l.filter fun e => sortDateKey e == k).filter
        fun e => sortDateKey e == k) = l.filter fun e => sortDateKey e == k := by
      rw [List.filter_eq_self]
      intro a ha
      exact (List.mem_filter.mp ha).2
    have hsub2 : List.Sublist (l.filter fun e => sortDateKey e == k)
        ((sort_contributors l).filter fun e => sortDateKey e == k) := by
      have hf := hsub.filter fun e => sortDateKey e == k
      rwa [hAfilter] at hf
    have hpermf : List.Perm ((sort_contributors l).filter fun e => sortDateKey e == k)
        (l.filter fun e => sortDateKey e == k) :=
      (List.perm_insertionSort _ l).filter _
    exact (hsub2.eq_of_length hpermf.length_eq.symm).symm

/-- C2 witness: input dates
`["2024-01-01T00:00:00Z", null, "2024-03-01T00:00:00Z", null]` (rows tagged
"1".."4") sort to `["2024-03-01", "2024-01-01", null(#2), null(#4)]`. -/
theorem c2_report_sort_witness :
    (∀ e ∈ demoReport, dateOK e) ∧
    (List.Perm (sort_contributors demoReport) demoReport ∧
      (sort_contributors demoReport).Pairwise
        (fun a b => charsLt (sortDateKey a) (sortDateKey b) = false) ∧
      (sort_contributors demoReport).Pairwise
        (fun a b => a.latest_commit_date = none → b.latest_commit_date = none) ∧
      ∀ k : List Char,
        (sort_contributors demoReport).filter (fun e => sortDateKey e == k) =
          demoReport.filter (fun e => sortDateKey e == k)) ∧
    (sort_contributors demoReport).map Enriched.username = ["3", "1", "2", "4"] := by
  have hdok : ∀ e ∈ demoReport, dateOK e := by
    intro e he
    simp only [demoReport, List.mem_cons, List.not_mem_nil, or_false] at he
    rcases he with rfl | rfl | rfl | rfl
    · exact Or.inr ⟨"2024-01-01T00:00:00Z", rfl, by decide⟩
    · exact Or.inl rfl
    · exact Or.inr ⟨"2024-03-01T00:00:00Z", rfl, by decide⟩
    · exact Or.inl rfl
  exact ⟨hdok, c2_report_sort demoReport hdok, rfl⟩

/-! ## Claim C3: repository-reference normalization equivalence -/

theorem getLast?_isSome_of_ne_nil :
    ∀ {y : List Char}, y ≠ [] → ∃ c, y.getLast? = some c ∧ c ∈ y := by
  intro y
  induction y with
  | nil => intro hy; exact absurd rfl hy
  | cons a t ih =>
    intro _
    cases t with
    | nil => exact ⟨a, rfl, List.mem_singleton.mpr rfl⟩
    | cons b t' =>
      obtain ⟨c, hc, hm⟩ := ih (by simp)
      exact ⟨c, by rw [List.getLast?_cons_cons]; exact hc, List.mem_cons_of_mem _ hm⟩

theorem getLast?_append_right {x y : List Char} (hy : y ≠ []) :
    (x ++ y).getLast? = y.getLast? := by
  obtain ⟨c, hc, _⟩ := getLast?_isSome_of_ne_nil hy
  rw [List.getLast?_append, hc]
  rfl

theorem dropTrailingSlash_of_getLast {u n : List Char} (hlast : u.getLast? = n.getLast?)
    (hn : n ≠ []) (htail : ∀ d ∈ n, d ≠ '/') : dropTrailingSlash u = u := by
  apply dropTrailingSlash_of_ne
  rw [hlast]
  obtain ⟨c, hc, hmem⟩ := getLast?_isSome_of_ne_nil hn
  rw [hc]
  intro hcon
  exact htail c hmem ((Option.some.injEq _ _).mp hcon)

theorem pyStartsWith_false_of_mem {p s : List Char} {c : Char} (hc : c ∈ p)
    (hs : ∀ d ∈ s, d ≠ c) : pyStartsWith p s = false := by
  by_contra hb
  have := mem_of_isPrefixOf (Bool.of_not_eq_false hb) c hc
  exact hs c this rfl

theorem extract_of_parts {s : String} {o n : List Char} {rest : List (List Char)}
    (h : repoRefParts s = o :: n :: rest) :
    extract_repo_info s = .ok (String.mk o, String.mk n) := by
  unfold extract_repo_info
  rw [h]

theorem repoRefParts_eq (s : String) :
    repoRefParts s =
      if pyStartsWith "https://".data (dropTrailingSlash (pyStrip s.data)) = true then
        pySplit ['/']
          (pyReplace "https://github.com/".data [] (dropTrailingSlash (pyStrip s.data)))
      else if pyStartsWith "git@github.com:".data (dropTrailingSlash (pyStrip s.data)) = true then
        pySplit ['/']
          (pyReplace "git@github.com:".data [] (dropTrailingSlash (pyStrip s.data)))
      else pySplit ['/'] (dropTrailingSlash (pyStrip s.data)) := rfl

/-- C3: all supported reference formats for a repository `(owner, name)` —
https URL, https URL with trailing slash, SSH URL, plain `owner/name`
shorthand, and https URL with extra path segments — are parsed to the same
`(owner, name)` pair, for any owner/name segments free of `'/'`, `':'` and
whitespace. -/
theorem c3_repo_ref_formats (o n extra : List Char)
    (ho : segOK o) (hn : segOK n) (he : extraOK extra) :
    extract_repo_info (String.mk ("https://github.com/".data ++ (o ++ '/' :: n)))
      = .ok (String.mk o, String.mk n) ∧
    extract_repo_info (String.mk (("https://github.com/".data ++ (o ++ '/' :: n)) ++ ['/']))
      = .ok (String.mk o, String.mk n) ∧
    extract_repo_info (String.mk ("git@github.com:".data ++ (o ++ '/' :: n)))
      = .ok (String.mk o, String.mk n) ∧
    extract_repo_info (String.mk (o ++ '/' :: n)) = .ok (String.mk o, String.mk n) ∧
    extract_repo_info
        (String.mk ("https://github.com/".data ++ (o ++ '/' :: (n ++ '/' :: extra))))
      = .ok (String.mk o, String.mk n) := by
  obtain ⟨honil, hoall⟩ := ho
  obtain ⟨hnnil, hnall⟩ := hn
  obtain ⟨henil, heall, helast⟩ := he
  have ho1 : ∀ d ∈ o, d ≠ '/' := fun d hd => (hoall d hd).1
  have ho2 : ∀ d ∈ o, d ≠ ':' := fun d hd => (hoall d hd).2.1
  have ho3 : ∀ d ∈ o, isPySpace d = false := fun d hd => (hoall d hd).2.2
  have hn1 : ∀ d ∈ n, d ≠ '/' := fun d hd => (hnall d hd).1
  have hn2 : ∀ d ∈ n, d ≠ ':' := fun d hd => (hnall d hd).2.1
  have hn3 : ∀ d ∈ n, isPySpace d = false := fun d hd => (hnall d hd).2.2
  have he2 : ∀ d ∈ extra, d ≠ ':' := fun d hd => (heall d hd).1
  have he3 : ∀ d ∈ extra, isPySpace d = false := fun d hd => (heall d hd).2
  -- the plain owner/name body, shared by all forms
  have hspON : ∀ d ∈ (o ++ '/' :: n), isPySpace d = false := by
    intro d hd
    rcases List.mem_append.mp hd with hh | hh
    · exact ho3 d hh
    · rcases List.mem_cons.mp hh with rfl | hh
      · decide
      · exact hn3 d hh
  have hcolON : ∀ d ∈ (o ++ '/' :: n), d ≠ ':' := by
    intro d hd
    rcases List.mem_append.mp hd with hh | hh
    · exact ho2 d hh
    · rcases List.mem_cons.mp hh with rfl | hh
      · decide
      · exact hn2 d hh
  have hsplitON : pySplit ['/'] (o ++ '/' :: n) = o :: [n] := by
    rw [pySplit_seg ho1, pySplit_no_sep hn1]
  have hONne : (o ++ '/' :: n) ≠ [] := by simp
  have hlastON : (o ++ '/' :: n).getLast? = n.getLast? := by
    rw [getLast?_append_right (by simp), show ('/' :: n) = ['/'] ++ n from rfl,
      getLast?_append_right hnnil]
  -- Form A: https URL
  have hspA : ∀ d ∈ ("https://github.com/".data ++ (o ++ '/' :: n)),
      isPySpace d = false := by
    intro d hd
    rcases List.mem_append.mp hd with hh | hh
    · exact (by decide : ∀ d ∈ "https://github.com/".data, isPySpace d = false) d hh
    · exact hspON d hh
  have hlastA : ("https://github.com/".data ++ (o ++ '/' :: n)).getLast? = n.getLast? := by
    rw [getLast?_append_right hONne, hlastON]
  have hstartA : pyStartsWith "https://".data
      ("https://github.com/".data ++ (o ++ '/' :: n)) = true := by
    rw [show "https://github.com/".data ++ (o ++ '/' :: n)
        = "https://".data ++ ("github.com/".data ++ (o ++ '/' :: n)) from rfl]
    exact isPrefixOf_append_self _ _
  have hreplA : pyReplace "https://github.com/".data []
      ("https://github.com/".data ++ (o ++ '/' :: n)) = o ++ '/' :: n := by
    rw [pyReplace_append_self [] (by decide) _,
      pyReplace_eq_self (containsSub_eq_false
        (show ':' ∈ "https://github.com/".data by decide) hcolON)]
    rfl
  have hpartsA : repoRefParts (String.mk ("https://github.com/".data ++ (o ++ '/' :: n)))
      = o :: [n] := by
    rw [repoRefParts_eq]
    rw [show (String.mk ("https://github.com/".data ++ (o ++ '/' :: n))).data
        = "https://github.com/".data ++ (o ++ '/' :: n) from rfl]
    rw [pyStrip_eq_self hspA,
      dropTrailingSlash_of_getLast hlastA hnnil hn1,
      if_pos hstartA, hreplA, hsplitON]
  -- Form B: https URL with trailing slash
  have hspB : ∀ d ∈ (("https://github.com/".data ++ (o ++ '/' :: n)) ++ ['/']),
      isPySpace d = false := by
    intro d hd
    rcases List.mem_append.mp hd with hh | hh
    · exact hspA d hh
    · rcases List.mem_singleton.mp hh with rfl
      decide
  have hpartsB : repoRefParts
      (String.mk (("https://github.com/".data ++ (o ++ '/' :: n)) ++ ['/']))
      = o :: [n] := by
    rw [repoRefParts_eq]
    rw [show (String.mk (("https://github.com/".data ++ (o ++ '/' :: n)) ++ ['/'])).data
        = ("https://github.com/".data ++ (o ++ '/' :: n)) ++ ['/'] from rfl]
    rw [pyStrip_eq_self hspB, dropTrailingSlash_concat,
      if_pos hstartA, hreplA, hsplitON]
  -- Form C: SSH URL
  have hspC : ∀ d ∈ ("git@github.com:".data ++ (o ++ '/' :: n)),
      isPySpace d = false := by
    intro d hd
    rcases List.mem_append.mp hd with hh | hh
    · exact (by decide : ∀ d ∈ "git@github.com:".data, isPySpace d = false) d hh
    · exact hspON d hh
  have hlastC : ("git@github.com:".data ++ (o ++ '/' :: n)).getLast? = n.getLast? := by
    rw [getLast?_append_right hONne, hlastON]
  have hstartC1 : pyStartsWith "https://".data
      ("git@github.com:".data ++ (o ++ '/' :: n)) = false := by
    rw [show "git@github.com:".data ++ (o ++ '/' :: n)
        = 'g' :: ("it@github.com:".data ++ (o ++ '/' :: n)) from rfl,
      show "https://".data = 'h' :: "ttps://".data from rfl]
    exact isPrefixOf_false_of_head_ne _ _ _ _ (by decide)
  have hstartC2 : pyStartsWith "git@github.com:".data
      ("git@github.com:".data ++ (o ++ '/' :: n)) = true :=
    isPrefixOf_append_self _ _
  have hreplC : pyReplace "git@github.com:".data []
      ("git@github.com:".data ++ (o ++ '/' :: n)) = o ++ '/' :: n := by
    rw [pyReplace_append_self [] (by decide) _,
      pyReplace_eq_self (containsSub_eq_false
        (show ':' ∈ "git@github.com:".data by decide) hcolON)]
    rfl
  have hpartsC : repoRefParts (String.mk ("git@github.com:".data ++ (o ++ '/' :: n)))
      = o :: [n] := by
    rw [repoRefParts_eq]
    rw [show (String.mk ("git@github.com:".data ++ (o ++ '/' :: n))).data
        = "git@github.com:".data ++ (o ++ '/' :: n) from rfl]
    rw [pyStrip_eq_self hspC,
      dropTrailingSlash_of_getLast hlastC hnnil hn1,
      if_neg (by rw [hstartC1]; simp), if_pos hstartC2, hreplC, hsplitON]
  -- Form D: plain owner/name
  have hstartD1 : pyStartsWith "https://".data (o ++ '/' :: n) = false :=
    pyStartsWith_false_of_mem (show ':' ∈ "https://".data by decide) hcolON
  have hstartD2 : pyStartsWith "git@github.com:".data (o ++ '/' :: n) = false :=
    pyStartsWith_false_of_mem (show ':' ∈ "git@github.com:".data by decide) hcolON
  have hpartsD : repoRefParts (String.mk (o ++ '/' :: n)) = o :: [n] := by
    rw [repoRefParts_eq]
    rw [show (String.mk (o ++ '/' :: n)).data = o ++ '/' :: n from rfl]
    rw [pyStrip_eq_self hspON,
      dropTrailingSlash_of_getLast hlastON hnnil hn1,
      if_neg (by rw [hstartD1]; simp), if_neg (by rw [hstartD2]; simp), hsplitON]
  -- Form E: https URL with extra path segments
  have hspE : ∀ d ∈ ("https://github.com/".data ++ (o ++ '/' :: (n ++ '/' :: extra))),
      isPySpace d = false := by
    intro d hd
    rcases List.mem_append.mp hd with hh | hh
    · exact (by decide : ∀ d ∈ "https://github.com/".data, isPySpace d = false) d hh
    · rcases List.mem_append.mp hh with hh | hh
      · exact ho3 d hh
      · rcases List.mem_cons.mp hh with rfl | hh
        · decide
        · rcases List.mem_append.mp hh with hh | hh
          · exact hn3 d hh
          · rcases List.mem_cons.mp hh with rfl | hh
            · decide
            · exact he3 d hh
  have hcolE : ∀ d ∈ (o ++ '/' :: (n ++ '/' :: extra)), d ≠ ':' := by
    intro d hd
    rcases List.mem_append.mp hd with hh | hh
    · exact ho2 d hh
    · rcases List.mem_cons.mp hh with rfl | hh
      · decide
      · rcases List.mem_append.mp hh with hh | hh
        · exact hn2 d hh
        · rcases List.mem_cons.mp hh with rfl | hh
          · decide
          · exact he2 d hh
  have hlastE : ("https://github.com/".data ++ (o ++ '/' :: (n ++ '/' :: extra))).getLast?
      = extra.getLast? := by
    rw [getLast?_append_right (by simp), getLast?_append_right (by simp),
      show ('/' :: (n ++ '/' :: extra)) = ['/'] ++ (n ++ '/' :: extra) from rfl,
      getLast?_append_right (by simp), getLast?_append_right (by simp),
      show ('/' :: extra) = ['/'] ++ extra from rfl,
      getLast?_append_right henil]
  have hdtsE : dropTrailingSlash
      ("https://github.com/".data ++ (o ++ '/' :: (n ++ '/' :: extra)))
      = "https://github.com/".data ++ (o ++ '/' :: (n ++ '/' :: extra)) := by
    apply dropTrailingSlash_of_ne
    rw [hlastE]
    exact helast
  have hstartE : pyStartsWith "https://".data
      ("https://github.com/".data ++ (o ++ '/' :: (n ++ '/' :: extra))) = true := by
    rw [show "https://github.com/".data ++ (o ++ '/' :: (n ++ '/' :: extra))
        = "https://".data ++ ("github.com/".data ++ (o ++ '/' :: (n ++ '/' :: extra)))
        from rfl]
    exact isPrefixOf_append_self _ _
  have hreplE : pyReplace "https://github.com/".data []
      ("https://github.com/".data ++ (o ++ '/' :: (n ++ '/' :: extra)))
      = o ++ '/' :: (n ++ '/' :: extra) := by
    rw [pyReplace_append_self [] (by decide) _,
      pyReplace_eq_self (containsSub_eq_false
        (show ':' ∈ "https://github.com/".data by decide) hcolE)]
    rfl
  have hpartsE : repoRefParts
      (String.mk ("https://github.com/".data ++ (o ++ '/' :: (n ++ '/' :: extra))))
      = o :: n :: pySplit ['/'] extra := by
    rw [repoRefParts_eq]
    rw [show (String.mk ("https://github.com/".data ++ (o ++ '/' :: (n ++ '/' :: extra)))).data
        = "https://github.com/".data ++ (o ++ '/' :: (n ++ '/' :: extra)) from rfl]
    rw [pyStrip_eq_self hspE, hdtsE, if_pos hstartE, hreplE,
      pySplit_seg ho1, pySplit_seg hn1]
  exact ⟨extract_of_parts hpartsA, extract_of_parts hpartsB, extract_of_parts hpartsC,
    extract_of_parts hpartsD, extract_of_parts hpartsE⟩

/-- C3 witness: the four reference formats of the claim, plus a deeper-path
URL, all parse to `("acme", "widgets")`. -/
theorem c3_repo_ref_formats_witness :
    segOK "acme".data ∧ segOK "widgets".data ∧ extraOK "tree/master".data ∧
    extract_repo_info "https://github.com/acme/widgets" = .ok ("acme", "widgets") ∧
    extract_repo_info "https://github.com/acme/widgets/" = .ok ("acme", "widgets") ∧
    extract_repo_info "git@github.com:acme/widgets" = .ok ("acme", "widgets") ∧
    extract_repo_info "acme/widgets" = .ok ("acme", "widgets") ∧
    extract_repo_info "https://github.com/acme/widgets/tree/master"
      = .ok ("acme", "widgets") := by
  have h := c3_repo_ref_formats "acme".data "widgets".data "tree/master".data
    (by decide) (by decide) (by decide)
  refine ⟨by decide, by decide, by decide, ?_, ?_, ?_, ?_, ?_⟩
  · have hx := h.1
    rwa [show String.mk ("https://github.com/".data ++ ("acme".data ++ '/' :: "widgets".data))
        = "https://github.com/acme/widgets" from by decide] at hx
  · have hx := h.2.1
    rwa [show String.mk (("https://github.com/".data ++ ("acme".data ++ '/' :: "widgets".data)) ++ ['/'])
        = "https://github.com/acme/widgets/" from by decide] at hx
  · have hx := h.2.2.1
    rwa [show String.mk ("git@github.com:".data ++ ("acme".data ++ '/' :: "widgets".data))
        = "git@github.com:acme/widgets" from by decide] at hx
  · have hx := h.2.2.2.1
    rwa [show String.mk ("acme".data ++ '/' :: "widgets".data)
        = "acme/widgets" from by decide] at hx
  · have hx := h.2.2.2.2
    rwa [show String.mk ("https://github.com/".data ++
          ("acme".data ++ '/' :: ("widgets".data ++ '/' :: "tree/master".data)))
        = "https://github.com/acme/widgets/tree/master" from by decide] at hx

end GHContrib
